import Mathlib

/-!
Verification of the file-sequencing bot core (`src/backend/bot.js`, first
version in the file): the ordering comparator used by `endSequence`, the
batched retrying delivery loop (`processBatch`, `retryOperation`), and the
session-store operations (`ssequence`, `processFileSequence`, `endSequence`).

Machine integers are modelled as `Nat`/`Int` (all quantities here are small
counters, delays and ranks; no overflow is reachable), fallible calls return
`Option`/`Except`-style results, and the Telegram transport is an explicit
oracle argument.
-/

namespace SeqBot

/-! ### Character helpers

`lowerAscii` models the case-insensitive (`/i`) matching of the episode
regex for the ASCII characters that occur in its markers.  `isSpaceCh`
models the regex class `\s` (ASCII whitespace; the further Unicode space
characters in `\s` are likewise non-digits, which is the only fact the
proofs use). -/

def lowerAscii (c : Char) : Char :=
  if 'A' ≤ c ∧ c ≤ 'Z' then Char.ofNat (c.toNat + 32) else c

def isSpaceCh (c : Char) : Bool :=
  c = ' ' || c = '\t' || c = '\n' || c = '\r' || c = '\x0b' || c = '\x0c'

/-- Value of a digit string, as computed by `parseInt` on a `\d{1,3}` capture. -/
def digitsVal (ds : List Char) : Nat :=
  ds.foldl (fun n c => n * 10 + (c.toNat - 48)) 0

/-! ### `getEpisodeNumber` (bot.js lines 288-291)

```js
function getEpisodeNumber(name = '') {
    const match = name.match(/(?:E|Ep|Episode|Part)?\s*(\d{1,3})/i);
    return match ? parseInt(match[1]) : 9999;
}
```

The regex is embedded as a matcher that, at each start position (leftmost
first, as JS `match` does), tries the alternatives of the optional marker
group in source order (`E`, `Ep`, `Episode`, `Part`, then the empty
alternative — the greedy `?`), then `\s*`, then `(\d{1,3})`.

`\s*` is run greedily without backtracking: giving back a whitespace
character would place `\d` on that whitespace character, which fails, so
the greedy parse is the only possible one, exactly as in JS.  Likewise
`\d{1,3}` is greedy and nothing follows it, so it captures
`min 3 (run length)` digits. -/

/-- Case-insensitive literal match of `pat` (given in lowercase) at the head
of `s`, returning the rest.  Models a regex literal under the `/i` flag. -/
def stripCI : List Char → List Char → Option (List Char)
  | [], s => some s
  | _ :: _, [] => none
  | p :: ps, c :: s => if lowerAscii c = p then stripCI ps s else none

/-- The tail pattern `\s*(\d{1,3})` at the current position: skip whitespace, then capture
one to three digits (greedily); `none` if no digit follows. -/
def matchTail (s : List Char) : Option Nat :=
  match (s.dropWhile isSpaceCh).takeWhile Char.isDigit with
  | [] => none
  | ds => some (digitsVal (ds.take 3))

/-- One attempt of `(?:E|Ep|Episode|Part)?\s*(\d{1,3})` anchored at the
current position, alternatives in the regex's order. -/
def epMatchAt (s : List Char) : Option Nat :=
  ((stripCI ['e'] s).bind matchTail) <|>
  ((stripCI ['e', 'p'] s).bind matchTail) <|>
  ((stripCI ['e', 'p', 'i', 's', 'o', 'd', 'e'] s).bind matchTail) <|>
  ((stripCI ['p', 'a', 'r', 't'] s).bind matchTail) <|>
  matchTail s

/-- Leftmost match: try each start position from the left. -/
def epSearch : List Char → Option Nat
  | [] => none
  | c :: s => epMatchAt (c :: s) <|> epSearch s

def getEpisodeNumber (name : String) : Nat :=
  (epSearch name.toList).getD 9999

/-! ### `getQualityRank` (bot.js lines 282-286)

```js
function getQualityRank(name = '') {
    const qualityOrder = { '480p': 0, '540p': 1, '720p': 2, '1080p': 3, '2160p': 4, '4K': 5 };
    const match = name.match(/(480p|540p|720p|1080p|2160p|4K)/);
    return match ? qualityOrder[match[1]] : 99;
}
```

Case-sensitive (no `/i` flag).  At each position the alternatives are
tried in source order; the matched token is looked up in the rank table,
which maps the six alternatives, in the same order, to 0..5. -/

/-- Case-sensitive literal match at the head of `s`. -/
def stripTok : List Char → List Char → Option (List Char)
  | [], s => some s
  | _ :: _, [] => none
  | p :: ps, c :: s => if c = p then stripTok ps s else none

/-- The alternation's tokens paired with their `qualityOrder` ranks, in the
source order of both the regex and the table. -/
def qualityTokens : List (List Char × Nat) :=
  [(['4', '8', '0', 'p'], 0), (['5', '4', '0', 'p'], 1), (['7', '2', '0', 'p'], 2),
   (['1', '0', '8', '0', 'p'], 3), (['2', '1', '6', '0', 'p'], 4), (['4', 'K'], 5)]

/-- One attempt of the quality alternation at the current position. -/
def qualMatchAt (s : List Char) : Option Nat :=
  (qualityTokens.find? (fun tk => (stripTok tk.1 s).isSome)).map (fun tk => tk.2)

def qualSearch : List Char → Option Nat
  | [] => none
  | c :: s => qualMatchAt (c :: s) <|> qualSearch s

def getQualityRank (name : String) : Nat :=
  (qualSearch name.toList).getD 99

/-! ### `localeCompare`

`nameA.localeCompare(nameB)` is a three-way, locale-aware comparison.  We
model it by code-point order returning -1/0/1; every property proved below
uses only that it is a linear three-way comparison, except the concrete
example of claim C3, whose filenames differ at a digit where every locale
agrees with code-point order. -/

def charListCmp : List Char → List Char → Int
  | [], [] => 0
  | [], _ :: _ => -1
  | _ :: _, [] => 1
  | a :: as, b :: bs => if a < b then -1 else if b < a then 1 else charListCmp as bs

def localeCompare (a b : String) : Int :=
  charListCmp a.toList b.toList

/-! ### Data model

A Telegram message carries at most one of `document` / `video` / `audio`;
ingestion (`processFileSequence`) rejects events carrying none of the three
before an item is stored, but `processBatch` re-checks defensively, so the
model keeps all three slots optional. -/

structure FileObj where
  file_id : String
  file_name : Option String
  file_size : Option Nat
deriving DecidableEq

inductive FileType where
  | document
  | video
  | audio
deriving DecidableEq

structure Msg where
  document : Option FileObj
  video : Option FileObj
  audio : Option FileObj
  caption : Option String
deriving DecidableEq

/-- Models `ctx.message[fileType]`. -/
def Msg.getType (m : Msg) : FileType → Option FileObj
  | .document => m.document
  | .video => m.video
  | .audio => m.audio

/-- Models `message.document || message.video || message.audio`. -/
def msgFile (m : Msg) : Option FileObj :=
  m.document <|> m.video <|> m.audio

/-- The `fileInfo` record built at ingestion (bot.js lines 94-100).
Timestamps are `Nat` ticks. -/
structure FileInfo where
  message : Msg
  fileType : FileType
  fileName : String
  fileSize : Nat
  timestamp : Nat
deriving DecidableEq

/-! ### The sort comparator (bot.js lines 192-202)

```js
userData.files.sort((a, b) => {
    const fileA = a.message.document || a.message.video || a.message.audio;
    const fileB = b.message.document || b.message.video || b.message.audio;
    const nameA = fileA.file_name || '';
    const nameB = fileB.file_name || '';
    return getQualityRank(nameA) - getQualityRank(nameB) ||
           getEpisodeNumber(nameA) - getEpisodeNumber(nameB) ||
           nameA.localeCompare(nameB);
});
```
-/

/-- JS `x || y` on numbers: `0` is falsy. -/
def jsOr (x y : Int) : Int :=
  if x = 0 then y else x

/-- Models `fileA.file_name || ''`.  For a message with no media object the JS
comparator would throw (`fileA` undefined); that case is unreachable for
ingested items (see `compareItemsJS`), and the total extension used for
sorting reads the name as `""` there. -/
def fiName (fi : FileInfo) : String :=
  match msgFile fi.message with
  | some f => f.file_name.getD ""
  | none => ""

def cmpNames (na nb : String) : Int :=
  jsOr ((getQualityRank na : Int) - (getQualityRank nb : Int))
    (jsOr ((getEpisodeNumber na : Int) - (getEpisodeNumber nb : Int))
      (localeCompare na nb))

/-- Total extension of the comparator, used to run the sort. -/
def compareItems (a b : FileInfo) : Int :=
  cmpNames (fiName a) (fiName b)

/-- Faithful comparator: `none` models the `TypeError` the JS arrow function
raises when a message carries no media object. -/
def compareItemsJS (a b : FileInfo) : Option Int :=
  match msgFile a.message, msgFile b.message with
  | some fa, some fb => some (cmpNames (fa.file_name.getD "") (fb.file_name.getD ""))
  | _, _ => none

/-- Holds when `a` sorts no later than `b`: comparator result `≤ 0`.  JS
`Array.prototype.sort` is a stable sort (ES2019); with a consistent
comparator its output is the unique stable `itemLe`-ordering of the input,
which we compute with Mathlib's stable `insertionSort`. -/
def itemLe (a b : FileInfo) : Prop :=
  compareItems a b ≤ 0

instance : DecidableRel itemLe := fun a b =>
  inferInstanceAs (Decidable (compareItems a b ≤ 0))

/-- Models `userData.files.sort(comparator)`. -/
def sortFiles (l : List FileInfo) : List FileInfo :=
  l.insertionSort itemLe

/-! ### The comparator is a total preorder -/

theorem charListCmp_swap : ∀ a b : List Char, charListCmp b a = -charListCmp a b
  | [], [] => rfl
  | [], _ :: _ => rfl
  | _ :: _, [] => rfl
  | a :: as, b :: bs => by
    simp only [charListCmp]
    rcases lt_trichotomy a b with h | h | h
    · simp only [if_pos h, if_neg (lt_asymm h)]
      omega
    · subst h
      simp only [if_neg (lt_irrefl a)]
      exact charListCmp_swap as bs
    · simp only [if_pos h, if_neg (lt_asymm h)]

theorem charListCmp_le_trans :
    ∀ a b c : List Char, charListCmp a b ≤ 0 → charListCmp b c ≤ 0 → charListCmp a c ≤ 0
  | [], _, [], _, _ => by simp [charListCmp]
  | [], _, _ :: _, _, _ => by simp [charListCmp]
  | _ :: _, [], _, hab, _ => by simp [charListCmp] at hab
  | _ :: _, _ :: _, [], _, hbc => by simp [charListCmp] at hbc
  | a :: as, b :: bs, c :: cs, hab, hbc => by
    simp only [charListCmp] at hab hbc ⊢
    have hba : ¬ b < a := by
      intro h
      rw [if_neg (lt_asymm h), if_pos h] at hab
      omega
    have hcb : ¬ c < b := by
      intro h
      rw [if_neg (lt_asymm h), if_pos h] at hbc
      omega
    by_cases h1 : a < c
    · rw [if_pos h1]
      omega
    · have hA : a = c := le_antisymm ((not_lt.1 hba).trans (not_lt.1 hcb)) (not_lt.1 h1)
      have hB : a = b := le_antisymm (not_lt.1 hba) (hA ▸ not_lt.1 hcb)
      subst hA
      subst hB
      simp only [if_neg (lt_irrefl a)] at hab hbc ⊢
      exact charListCmp_le_trans as bs cs hab hbc

/-- The comparator result for swapped arguments is the negation: the key
facts making `itemLe` total. -/
theorem jsOr_neg (x y : Int) : jsOr (-x) (-y) = -jsOr x y := by
  unfold jsOr
  split_ifs with h1 h2 h2 <;> omega

theorem cmpNames_swap (na nb : String) : cmpNames nb na = -cmpNames na nb := by
  unfold cmpNames localeCompare
  rw [charListCmp_swap]
  rw [show ((getQualityRank nb : Int) - getQualityRank na) =
    -((getQualityRank na : Int) - getQualityRank nb) by ring]
  rw [show ((getEpisodeNumber nb : Int) - getEpisodeNumber na) =
    -((getEpisodeNumber na : Int) - getEpisodeNumber nb) by ring]
  rw [jsOr_neg, jsOr_neg]

/-- The inequality `cmpNames na nb ≤ 0` is exactly the lexicographic comparison of the key
triple (quality rank, episode number, locale comparison). -/
theorem cmpNames_le_iff (na nb : String) :
    cmpNames na nb ≤ 0 ↔
      (getQualityRank na < getQualityRank nb ∨
        (getQualityRank na = getQualityRank nb ∧
          (getEpisodeNumber na < getEpisodeNumber nb ∨
            (getEpisodeNumber na = getEpisodeNumber nb ∧ localeCompare na nb ≤ 0)))) := by
  unfold cmpNames jsOr
  split_ifs with h1 h2 <;> omega

instance : IsTotal FileInfo itemLe := by
  constructor
  intro a b
  unfold itemLe compareItems
  rw [cmpNames_swap (fiName a) (fiName b)]
  omega

instance : IsTrans FileInfo itemLe := by
  constructor
  intro a b c hab hbc
  unfold itemLe compareItems at hab hbc ⊢
  rw [cmpNames_le_iff] at hab hbc ⊢
  rcases hab with h1 | ⟨hq1, h1⟩
  · rcases hbc with h2 | ⟨hq2, h2⟩
    · exact Or.inl (h1.trans h2)
    · exact Or.inl (hq2 ▸ h1)
  · rcases hbc with h2 | ⟨hq2, h2⟩
    · exact Or.inl (hq1 ▸ h2)
    · refine Or.inr ⟨hq1.trans hq2, ?_⟩
      rcases h1 with h1 | ⟨he1, h1⟩
      · rcases h2 with h2 | ⟨he2, h2⟩
        · exact Or.inl (h1.trans h2)
        · exact Or.inl (he2 ▸ h1)
      · rcases h2 with h2 | ⟨he2, h2⟩
        · exact Or.inl (he1 ▸ h2)
        · exact Or.inr ⟨he1.trans he2, charListCmp_le_trans _ _ _ h1 h2⟩

theorem cmpNames_lt_iff (na nb : String) :
    cmpNames na nb < 0 ↔
      (getQualityRank na < getQualityRank nb ∨
        (getQualityRank na = getQualityRank nb ∧
          (getEpisodeNumber na < getEpisodeNumber nb ∨
            (getEpisodeNumber na = getEpisodeNumber nb ∧ localeCompare na nb < 0)))) := by
  unfold cmpNames jsOr
  split_ifs with h1 h2 <;> omega

theorem jsOr_zero (y : Int) : jsOr 0 y = y := by
  unfold jsOr
  simp

theorem cmpNames_third_tier (na nb : String)
    (hq : getQualityRank na = getQualityRank nb)
    (he : getEpisodeNumber na = getEpisodeNumber nb) :
    cmpNames na nb = localeCompare na nb := by
  unfold cmpNames
  rw [show ((getQualityRank na : Int) - getQualityRank nb) = 0 by omega,
    show ((getEpisodeNumber na : Int) - getEpisodeNumber nb) = 0 by omega,
    jsOr_zero, jsOr_zero]

/-! ### `getQualityRank` hits 99 exactly on names containing no token -/

/-- Token `tk` occurs (case-sensitively) somewhere in `s`. -/
def tokenIn (tk : List Char) : List Char → Bool
  | [] => false
  | c :: s => (stripTok tk (c :: s)).isSome || tokenIn tk s

/-- Some token of the quality vocabulary occurs in the name. -/
def hasQualityToken (name : String) : Bool :=
  qualityTokens.any (fun p => tokenIn p.1 name.toList)

theorem qualMatchAt_eq_none_iff (s : List Char) :
    qualMatchAt s = none ↔ ∀ p ∈ qualityTokens, (stripTok p.1 s).isSome = false := by
  unfold qualMatchAt
  rw [Option.map_eq_none', List.find?_eq_none]
  simp

theorem orElse_eq_none {α : Type} (a b : Option α) :
    (a <|> b) = none ↔ a = none ∧ b = none := by
  cases a <;> simp

theorem qualSearch_eq_none_iff :
    ∀ s : List Char, qualSearch s = none ↔ ∀ p ∈ qualityTokens, tokenIn p.1 s = false
  | [] => by
    simp [qualSearch, tokenIn]
  | c :: s => by
    have ih := qualSearch_eq_none_iff s
    show (qualMatchAt (c :: s) <|> qualSearch s) = none ↔ _
    rw [orElse_eq_none, qualMatchAt_eq_none_iff, ih]
    constructor
    · rintro ⟨h1, h2⟩ p hp
      unfold tokenIn
      rw [Bool.or_eq_false_iff]
      exact ⟨h1 p hp, h2 p hp⟩
    · intro hall
      constructor
      · intro p hp
        have h1 := hall p hp
        unfold tokenIn at h1
        exact (Bool.or_eq_false_iff.1 h1).1
      · intro p hp
        have h1 := hall p hp
        unfold tokenIn at h1
        exact (Bool.or_eq_false_iff.1 h1).2

theorem qualSearch_rank_le :
    ∀ s : List Char, ∀ r, qualSearch s = some r → r ≤ 5
  | [], r => by simp [qualSearch]
  | c :: s, r => by
    intro h
    show r ≤ 5
    rw [show qualSearch (c :: s) = (qualMatchAt (c :: s) <|> qualSearch s) from rfl] at h
    cases hm : qualMatchAt (c :: s) with
    | some r' =>
      rw [hm] at h
      simp at h
      subst h
      unfold qualMatchAt at hm
      rcases Option.map_eq_some'.1 hm with ⟨tk, hfind, hsnd⟩
      have hmem : tk ∈ qualityTokens := List.mem_of_find?_eq_some hfind
      have hall : ∀ p ∈ qualityTokens, p.2 ≤ 5 := by decide
      exact hsnd ▸ hall tk hmem
    | none =>
      rw [hm] at h
      simp at h
      exact qualSearch_rank_le s r h

/-! ### Character facts: digits are not whitespace, not letters, and
case-folding fixes them -/

theorem space_not_digit {c : Char} (h : isSpaceCh c = true) : c.isDigit = false := by
  unfold isSpaceCh at h
  simp only [Bool.or_eq_true, decide_eq_true_eq] at h
  rcases h with ((((h | h) | h) | h) | h) | h <;> subst h <;> decide

theorem digit_not_space {c : Char} (h : c.isDigit = true) : isSpaceCh c = false := by
  cases hs : isSpaceCh c with
  | false => rfl
  | true => rw [space_not_digit hs] at h; cases h

theorem digit_lowerAscii {c : Char} (h : c.isDigit = true) : lowerAscii c = c := by
  unfold lowerAscii
  rw [if_neg]
  intro h2
  simp [Char.isDigit] at h
  rw [Char.le_def, Char.le_def, UInt32.le_def, UInt32.le_def] at h2
  rw [UInt32.le_def, UInt32.le_def] at h
  rw [BitVec.le_def, BitVec.le_def] at h h2
  simp at h h2
  omega

theorem digit_ne_lower {c p : Char} (h : c.isDigit = true) (hp : 'a' ≤ p) :
    lowerAscii c ≠ p := by
  rw [digit_lowerAscii h]
  intro he
  subst he
  simp [Char.isDigit] at h
  rw [Char.le_def, UInt32.le_def] at hp
  rw [UInt32.le_def, UInt32.le_def] at h
  rw [BitVec.le_def] at hp
  rw [BitVec.le_def, BitVec.le_def] at h
  simp at h hp
  omega

/-! ### What `getEpisodeNumber` really computes

The regex `(?:E|Ep|Episode|Part)?\s*(\d{1,3})` has no word boundaries: its
leftmost match always captures the first one-to-three digits starting at
the name's first digit (markers and whitespace contain no digit, so no
earlier-starting match can capture a different digit position). -/

/-- The first maximal digit run of the name. -/
def firstRun (s : List Char) : List Char :=
  (s.dropWhile (fun c => !c.isDigit)).takeWhile Char.isDigit

theorem dropWhile_notdigit_append (xs t : List Char)
    (h : ∀ c ∈ xs, c.isDigit = false) :
    (xs ++ t).dropWhile (fun c => !c.isDigit) = t.dropWhile (fun c => !c.isDigit) := by
  induction xs with
  | nil => rfl
  | cons x xs ih =>
    have hx : x.isDigit = false := h x (List.mem_cons_self x xs)
    rw [List.cons_append, List.dropWhile_cons, if_pos (by rw [hx]; rfl)]
    exact ih fun c hc => h c (List.mem_cons_of_mem x hc)

theorem orElse_eq_some {α : Type} (a b : Option α) (v : α) :
    (a <|> b) = some v ↔ a = some v ∨ (a = none ∧ b = some v) := by
  cases a <;> simp

/-- Any successful anchored match captures the first (≤3-digit prefix of
the) digit run of its input. -/
theorem matchTail_some {s : List Char} {v : Nat} (h : matchTail s = some v) :
    v = digitsVal ((firstRun s).take 3) ∧ s.any Char.isDigit = true := by
  unfold matchTail at h
  cases hds : (s.dropWhile isSpaceCh).takeWhile Char.isDigit with
  | nil => rw [hds] at h; cases h
  | cons d ds =>
    rw [hds] at h
    have hv : v = digitsVal ((d :: ds).take 3) := by
      cases h
      rfl
    obtain ⟨t', ht, hd⟩ : ∃ t', s.dropWhile isSpaceCh = d :: t' ∧ d.isDigit = true := by
      cases hsd : s.dropWhile isSpaceCh with
      | nil => rw [hsd] at hds; cases hds
      | cons e es =>
        rw [hsd, List.takeWhile_cons] at hds
        cases hte : e.isDigit with
        | false =>
          rw [if_neg (by simp [hte])] at hds
          cases hds
        | true =>
          rw [if_pos (by simp [hte])] at hds
          obtain ⟨h1, _⟩ := List.cons_eq_cons.1 hds
          subst h1
          exact ⟨es, rfl, hte⟩
    have hsplit : s = s.takeWhile isSpaceCh ++ (d :: t') := by
      rw [← ht, List.takeWhile_append_dropWhile]
    have hdrop : s.dropWhile (fun c => !c.isDigit) = d :: t' := by
      conv =>
        lhs
        rw [hsplit]
      rw [dropWhile_notdigit_append _ _
        (fun c hc => space_not_digit (List.mem_takeWhile_imp hc))]
      rw [List.dropWhile_cons, if_neg (by simp [hd])]
    refine ⟨?_, ?_⟩
    · rw [hv]
      unfold firstRun
      rw [hdrop, ← ht, hds]
    · rw [List.any_eq_true]
      exact ⟨d, by rw [hsplit]; exact List.mem_append_right _ (List.mem_cons_self d t'), hd⟩

/-- Case-insensitive marker stripping only consumes non-digits, hence
preserves the position of the first digit. -/
theorem stripCI_dropWhile :
    ∀ (pat s s2 : List Char), (∀ p ∈ pat, 'a' ≤ p) → stripCI pat s = some s2 →
      s.dropWhile (fun c => !c.isDigit) = s2.dropWhile (fun c => !c.isDigit)
  | [], s, s2, _, h => by
    cases h
    rfl
  | p :: ps, [], s2, _, h => by cases h
  | p :: ps, c :: s, s2, hpat, h => by
    unfold stripCI at h
    split_ifs at h with hc
    · have hcd : c.isDigit = false := by
        cases hd : c.isDigit with
        | false => rfl
        | true => exact absurd hc (digit_ne_lower hd (hpat p (List.mem_cons_self p ps)))
      rw [List.dropWhile_cons, if_pos (by rw [hcd]; rfl)]
      exact stripCI_dropWhile ps s s2 (fun q hq => hpat q (List.mem_cons_of_mem p hq)) h

/-- Matching at a digit-headed position always succeeds with the first ≤3
digits. -/
theorem epMatchAt_digit_head {c : Char} {s : List Char} (h : c.isDigit = true) :
    epMatchAt (c :: s) = some (digitsVal ((c :: s.takeWhile Char.isDigit).take 3)) := by
  have hstrip : ∀ p ps, 'a' ≤ p → stripCI (p :: ps) (c :: s) = none := by
    intro p ps hp
    unfold stripCI
    rw [if_neg (digit_ne_lower h hp)]
  have hmt : matchTail (c :: s) = some (digitsVal ((c :: s.takeWhile Char.isDigit).take 3)) := by
    unfold matchTail
    rw [List.dropWhile_cons, if_neg (by simp [digit_not_space h])]
    rw [List.takeWhile_cons, if_pos (by simp [h])]
  unfold epMatchAt
  rw [hstrip 'e' [] (by decide), hstrip 'e' ['p'] (by decide),
    hstrip 'e' ['p', 'i', 's', 'o', 'd', 'e'] (by decide),
    hstrip 'p' ['a', 'r', 't'] (by decide), hmt]
  rfl

/-- Any successful anchored match (through any marker alternative) captures
the first ≤3 digits of the first digit run. -/
theorem epMatchAt_some {s : List Char} {v : Nat} (h : epMatchAt s = some v) :
    v = digitsVal ((firstRun s).take 3) ∧ s.any Char.isDigit = true := by
  unfold epMatchAt at h
  have step : ∀ (pat : List Char) (rest : Option Nat),
      (∀ p ∈ pat, 'a' ≤ p) →
      ((stripCI pat s).bind matchTail <|> rest) = some v →
      (v = digitsVal ((firstRun s).take 3) ∧ s.any Char.isDigit = true) ∨ rest = some v := by
    intro pat rest hpat hor
    rcases (orElse_eq_some _ _ _).1 hor with hsome | ⟨_, hrest⟩
    · left
      cases hstrip : stripCI pat s with
      | none => rw [hstrip] at hsome; cases hsome
      | some s2 =>
        rw [hstrip] at hsome
        have hmt := matchTail_some (show matchTail s2 = some v from hsome)
        have hdw := stripCI_dropWhile pat s s2 hpat hstrip
        constructor
        · rw [hmt.1]
          unfold firstRun
          rw [hdw]
        · have h2 := hmt.2
          have hne : s2.dropWhile (fun c => !c.isDigit) ≠ [] := by
            intro hnil
            rw [List.dropWhile_eq_nil_iff] at hnil
            rw [List.any_eq_true] at h2
            rcases h2 with ⟨d, hd, hdig⟩
            have hcontra := hnil d hd
            rw [hdig] at hcontra
            cases hcontra
          have hsne : s.dropWhile (fun c => !c.isDigit) ≠ [] := by
            rw [hdw]
            exact hne
          rw [Ne, List.dropWhile_eq_nil_iff] at hsne
          push_neg at hsne
          rcases hsne with ⟨d, hd, hnd⟩
          rw [List.any_eq_true]
          refine ⟨d, hd, ?_⟩
          cases hdig : d.isDigit with
          | false => exact absurd (by rw [hdig]; rfl) hnd
          | true => rfl
    · right
      exact hrest
  rcases step ['e'] _ (by decide) h with hdone | h2
  · exact hdone
  rcases step ['e', 'p'] _ (by decide) h2 with hdone | h3
  · exact hdone
  rcases step ['e', 'p', 'i', 's', 'o', 'd', 'e'] _ (by decide) h3 with hdone | h4
  · exact hdone
  rcases step ['p', 'a', 'r', 't'] _ (by decide) h4 with hdone | h5
  · exact hdone
  exact matchTail_some h5

/-- The search ever finds exactly: the first up-to-three digits of the first
digit run (or nothing when the name has no digit). -/
theorem epSearch_eq :
    ∀ s : List Char,
      epSearch s =
        if s.any Char.isDigit then some (digitsVal ((firstRun s).take 3)) else none
  | [] => rfl
  | c :: s => by
    show (epMatchAt (c :: s) <|> epSearch s) = _
    cases hc : c.isDigit with
    | true =>
      have hany : (c :: s).any Char.isDigit = true := by simp [hc]
      have hfr : firstRun (c :: s) = c :: s.takeWhile Char.isDigit := by
        unfold firstRun
        rw [List.dropWhile_cons, if_neg (by simp [hc]), List.takeWhile_cons,
          if_pos (by simp [hc])]
      rw [epMatchAt_digit_head hc, hany, if_pos rfl, hfr]
      simp
    | false =>
      cases hm : epMatchAt (c :: s) with
      | some v =>
        have h2 := epMatchAt_some hm
        rw [h2.2, if_pos rfl]
        simp [h2.1]
      | none =>
        have ih := epSearch_eq s
        have hanyeq : (c :: s).any Char.isDigit = s.any Char.isDigit := by simp [hc]
        have hfr : firstRun (c :: s) = firstRun s := by
          unfold firstRun
          rw [List.dropWhile_cons, if_pos (by simp [hc])]
        rw [hanyeq, hfr]
        simpa using ih

/-- Formalisation of claim C2's own wording (reference definition, written
from the spec sentence, not from the code): the episode key is the first
standalone integer of one to three digits — a maximal digit run of length
at most three — in the filename; the optional marker prefix imposes no
constraint on which integer is found, since it is optional; when no such
run exists the key is 9999.  The fuel argument (the name's length) only
makes the recursion structural. -/
def claimEpisodeGo : Nat → List Char → Option Nat
  | 0, _ => none
  | _ + 1, [] => none
  | fuel + 1, c :: s =>
    if c.isDigit then
      if (c :: s.takeWhile Char.isDigit).length ≤ 3 then
        some (digitsVal (c :: s.takeWhile Char.isDigit))
      else claimEpisodeGo fuel (s.dropWhile Char.isDigit)
    else claimEpisodeGo fuel s

def claimEpisodeKey (name : String) : Nat :=
  (claimEpisodeGo name.toList.length name.toList).getD 9999

/-- C2 counterexample: on the filename `1234` the code extracts 123 (the
first three digits of the four-digit run), whereas the claim's "first
standalone integer of 1 to 3 digits" does not exist there, so the claimed
key would be the sentinel 9999. -/
theorem episode_key_standalone_cex :
    getEpisodeNumber "1234" = 123 ∧ claimEpisodeKey "1234" = 9999 := by
  decide

/-- C2 amended: the episode key is the numeric value of the first
one-to-three digits starting at the filename's first digit (a longer digit
run is truncated to its first three digits); the optional marker prefix
never changes the captured digits, and a filename with no digit at all
gets the sentinel 9999. -/
theorem episode_key_first_digits (name : String) :
    getEpisodeNumber name =
      if name.toList.any Char.isDigit then digitsVal ((firstRun name.toList).take 3)
      else 9999 := by
  unfold getEpisodeNumber
  rw [epSearch_eq]
  cases name.toList.any Char.isDigit <;> rfl

/-! ### Concrete items used in examples and witnesses -/

/-- A document message whose file carries the given filename. -/
def exMsg (nm : String) : Msg :=
  { document := some { file_id := "id", file_name := some nm, file_size := none },
    video := none, audio := none, caption := none }

def exItem (nm : String) : FileInfo :=
  { message := exMsg nm, fileType := .document, fileName := nm, fileSize := 0, timestamp := 0 }

/-- An ingested video item whose file object lacks a `file_name`. -/
def exNoName : FileInfo :=
  { message := { document := none,
                 video := some { file_id := "v", file_name := none, file_size := none },
                 audio := none, caption := none },
    fileType := .video, fileName := "video_0", fileSize := 0, timestamp := 0 }

/-- C1: the close-time comparator orders by quality rank (vocabulary
480p,540p,720p,1080p,2160p,4K ranked 0..5, sentinel 99 when no token
occurs in the filename), then by episode number, then by the locale
comparison of the full filenames; a missing filename reads as `""` and
items with a media object never make the comparator fault. -/
theorem comparator_three_tiers :
    (∀ a b : FileInfo, (msgFile a.message).isSome → (msgFile b.message).isSome →
      compareItemsJS a b = some (compareItems a b)) ∧
    (∀ a b : FileInfo,
      (getQualityRank (fiName a) < getQualityRank (fiName b) → compareItems a b < 0) ∧
      (getQualityRank (fiName b) < getQualityRank (fiName a) → 0 < compareItems a b) ∧
      (getQualityRank (fiName a) = getQualityRank (fiName b) →
        getEpisodeNumber (fiName a) < getEpisodeNumber (fiName b) → compareItems a b < 0) ∧
      (getQualityRank (fiName a) = getQualityRank (fiName b) →
        getEpisodeNumber (fiName b) < getEpisodeNumber (fiName a) → 0 < compareItems a b) ∧
      (getQualityRank (fiName a) = getQualityRank (fiName b) →
        getEpisodeNumber (fiName a) = getEpisodeNumber (fiName b) →
        compareItems a b = localeCompare (fiName a) (fiName b))) ∧
    (∀ fi : FileInfo, ∀ f, msgFile fi.message = some f → f.file_name = none →
      fiName fi = "") ∧
    (∀ s : String, hasQualityToken s = false → getQualityRank s = 99) ∧
    (∀ s : String, hasQualityToken s = true → getQualityRank s ≤ 5) ∧
    (getQualityRank "480p" = 0 ∧ getQualityRank "540p" = 1 ∧ getQualityRank "720p" = 2 ∧
      getQualityRank "1080p" = 3 ∧ getQualityRank "2160p" = 4 ∧ getQualityRank "4K" = 5) := by
  refine ⟨?_, ?_, ?_, ?_, ?_, by decide⟩
  · intro a b ha hb
    rcases Option.isSome_iff_exists.1 ha with ⟨fa, hfa⟩
    rcases Option.isSome_iff_exists.1 hb with ⟨fb, hfb⟩
    unfold compareItemsJS compareItems fiName
    rw [hfa, hfb]
  · intro a b
    refine ⟨?_, ?_, ?_, ?_, ?_⟩
    · intro h
      exact (cmpNames_lt_iff _ _).2 (Or.inl h)
    · intro h
      have := cmpNames_swap (fiName a) (fiName b)
      have h2 : cmpNames (fiName b) (fiName a) < 0 := (cmpNames_lt_iff _ _).2 (Or.inl h)
      unfold compareItems
      omega
    · intro hq he
      exact (cmpNames_lt_iff _ _).2 (Or.inr ⟨hq, Or.inl he⟩)
    · intro hq he
      have := cmpNames_swap (fiName a) (fiName b)
      have h2 : cmpNames (fiName b) (fiName a) < 0 :=
        (cmpNames_lt_iff _ _).2 (Or.inr ⟨hq.symm, Or.inl he⟩)
      unfold compareItems
      omega
    · intro hq he
      exact cmpNames_third_tier _ _ hq he
  · intro fi f hf hn
    unfold fiName
    rw [hf]
    show f.file_name.getD "" = ""
    rw [hn]
    rfl
  · intro s h
    unfold getQualityRank
    have : qualSearch s.toList = none := by
      rw [qualSearch_eq_none_iff]
      intro p hp
      unfold hasQualityToken at h
      rw [List.any_eq_false] at h
      simpa using h p hp
    rw [this]
    rfl
  · intro s h
    unfold hasQualityToken at h
    unfold getQualityRank
    cases hq : qualSearch s.toList with
    | some r =>
      have := qualSearch_rank_le s.toList r hq
      simpa using this
    | none =>
      rw [qualSearch_eq_none_iff] at hq
      rw [List.any_eq_true] at h
      rcases h with ⟨p, hp, htk⟩
      rw [hq p hp] at htk
      cases htk

/-- Witness for C1 at concrete inputs: a 480p item sorts before a 720p item
(first tier), and within equal first two tiers the comparator is the locale
comparison. -/
theorem comparator_three_tiers_witness :
    compareItemsJS (exItem "a.480p.mkv") (exItem "b.720p.mkv") =
        some (compareItems (exItem "a.480p.mkv") (exItem "b.720p.mkv")) ∧
      compareItems (exItem "a.480p.mkv") (exItem "b.720p.mkv") < 0 ∧
      fiName exNoName = "" := by
  refine ⟨?_, ?_, ?_⟩
  · exact comparator_three_tiers.1 (exItem "a.480p.mkv") (exItem "b.720p.mkv")
      (by decide) (by decide)
  · exact (comparator_three_tiers.2.1 (exItem "a.480p.mkv") (exItem "b.720p.mkv")).1 (by decide)
  · exact comparator_three_tiers.2.2.1 exNoName
      { file_id := "v", file_name := none, file_size := none } (by decide) (by decide)

/-- C3: the spec's worked example: `Show.480p.E02.mkv`, `Show.720p.E01.mkv`,
`Show.480p.E01.mkv` sort to `Show.480p.E01.mkv`, `Show.480p.E02.mkv`,
`Show.720p.E01.mkv`. -/
theorem example_three_items_order :
    sortFiles
        [exItem "Show.480p.E02.mkv", exItem "Show.720p.E01.mkv", exItem "Show.480p.E01.mkv"] =
      [exItem "Show.480p.E01.mkv", exItem "Show.480p.E02.mkv", exItem "Show.720p.E01.mkv"] := by
  decide

/-- C4: sorting is idempotent on item lists (every ingested item carries a
media object): the comparator induces a total preorder and the sort is
stable, so re-sorting its own output is a no-op. -/
theorem order_idempotent (l : List FileInfo)
    (_h : ∀ fi ∈ l, (msgFile fi.message).isSome) :
    sortFiles (sortFiles l) = sortFiles l :=
  List.Sorted.insertionSort_eq (List.sorted_insertionSort itemLe l)

/-- Witness for C4 on a concrete item list (including an item with no
filename). -/
theorem order_idempotent_witness :
    (∀ fi ∈ [exItem "b.mkv", exNoName, exItem "a.mkv"], (msgFile fi.message).isSome) ∧
      sortFiles (sortFiles [exItem "b.mkv", exNoName, exItem "a.mkv"]) =
        sortFiles [exItem "b.mkv", exNoName, exItem "a.mkv"] :=
  ⟨by decide, order_idempotent [exItem "b.mkv", exNoName, exItem "a.mkv"] (by decide)⟩

/-! ### Delivery engine (bot.js `CONFIG`, `retryOperation`, `processBatch`,
and the batch loop of `endSequence`) -/

structure Config where
  BATCH_SIZE : Nat
  DELAY_BETWEEN_BATCHES : Nat
  DELAY_BETWEEN_FILES : Nat
  MAX_RETRIES : Nat
  RETRY_DELAY : Nat
  MAX_FILES_PER_USER : Nat
  PROGRESS_UPDATE_INTERVAL : Nat

/-- bot.js lines 23-31. -/
def CONFIG : Config :=
  { BATCH_SIZE := 50, DELAY_BETWEEN_BATCHES := 100, DELAY_BETWEEN_FILES := 100,
    MAX_RETRIES := 3, RETRY_DELAY := 1000, MAX_FILES_PER_USER := 200,
    PROGRESS_UPDATE_INTERVAL := 50 }

/-- Observable events of the delivery loop.  `attempt i a ok` is one
transport send call for the item with sorted-order index `i`, attempt
number `a` (1-based), resolving iff `ok`; the three sleep kinds carry
their duration in ms and are tagged by call site (`backoff` from
`retryOperation`, `fileDelay` from the in-batch pacing at line 157,
`batchDelay` from the between-batch pacing at line 228). -/
inductive Ev where
  | attempt (idx att : Nat) (ok : Bool)
  | backoff (ms : Nat)
  | fileDelay (ms : Nat)
  | batchDelay (ms : Nat)
deriving DecidableEq

/-- Transport behaviour for one item: `err a = some msg` means the `a`-th
send attempt rejects with message `msg`; `none` means it resolves. -/
abbrev ItemOracle := Nat → Option String

/-- Transport behaviour for a whole delivery, per item index. -/
abbrev Oracle := Nat → ItemOracle

/-- Models `retryOperation` (bot.js lines 37-53) applied to the send of one item:
attempts are numbered from 1; a failed attempt other than the last sleeps
`delay * 2^(attempt-1)` and retries; the last failure rethrows the last
error.  First numeric argument is the remaining attempt budget, second the
current attempt number; the 0-budget case is unreachable (the code is
always called with `maxRetries = 3`). -/
def retryGo (err : ItemOracle) (idx delay : Nat) : Nat → Nat → List Ev × Option String
  | 0, _ => ([], some "")
  | 1, att =>
    match err att with
    | none => ([.attempt idx att true], none)
    | some m => ([.attempt idx att false], some m)
  | rem + 2, att =>
    match err att with
    | none => ([.attempt idx att true], none)
    | some _ =>
      let r := retryGo err idx delay (rem + 1) (att + 1)
      (.attempt idx att false :: .backoff (delay * 2 ^ (att - 1)) :: r.1, r.2)

def retryOperation (err : ItemOracle) (idx : Nat) : List Ev × Option String :=
  retryGo err idx CONFIG.RETRY_DELAY CONFIG.MAX_RETRIES 1

/-- The `results` object of `processBatch` plus the emitted event trace. -/
structure BatchRes where
  success : Nat
  failed : Nat
  errors : List String
  trace : List Ev
deriving DecidableEq

/-- Models `processBatch` (bot.js lines 121-168) over a batch of items paired with
their global sorted-order indices: an item whose message has no media
object counts as failed with no error entry and no transport call; an item
whose retries all fail records `fileName: lastError` and the loop moves
on; a successful send is followed by the inter-file delay unless the item
is the batch's last (`i < batch.length - 1`). -/
def processBatchGo (orc : Oracle) : List (Nat × FileInfo) → BatchRes
  | [] => ⟨0, 0, [], []⟩
  | (idx, fi) :: rest =>
    match msgFile fi.message with
    | none =>
      let r := processBatchGo orc rest
      ⟨r.success, r.failed + 1, r.errors, r.trace⟩
    | some _ =>
      let att := retryOperation (orc idx) idx
      let r := processBatchGo orc rest
      match att.2 with
      | none =>
        ⟨r.success + 1, r.failed, r.errors,
          att.1 ++ (if rest.isEmpty then [] else [.fileDelay CONFIG.DELAY_BETWEEN_FILES]) ++
            r.trace⟩
      | some m =>
        ⟨r.success, r.failed + 1, (fi.fileName ++ ": " ++ m) :: r.errors, att.1 ++ r.trace⟩

/-- The batch partition built at bot.js lines 205-208: consecutive slices
`items.slice(i, i + BATCH_SIZE)`.  The first numeric argument is fuel (the
list length bounds the slice count), keeping the recursion structural. -/
def chunksGo {α : Type} (n : Nat) : Nat → List α → List (List α)
  | 0, _ => []
  | _ + 1, [] => []
  | fuel + 1, l => l.take n :: chunksGo n fuel (l.drop n)

def chunks {α : Type} (n : Nat) (l : List α) : List (List α) :=
  chunksGo n l.length l

/-- The batch loop of `endSequence` (bot.js lines 215-230), with the
batch-boundary progress replies taken as resolving (their rejection is
modelled in `endSequenceModel`): batches run strictly in order, with the
inter-batch delay after every batch except the last
(`i < batches.length - 1`). -/
def runBatchesOK (orc : Oracle) : List (List (Nat × FileInfo)) → BatchRes
  | [] => ⟨0, 0, [], []⟩
  | b :: rest =>
    let r := processBatchGo orc b
    let rr := runBatchesOK orc rest
    ⟨r.success + rr.success, r.failed + rr.failed, r.errors ++ rr.errors,
      r.trace ++
        (if rest.isEmpty then [] else [.batchDelay CONFIG.DELAY_BETWEEN_BATCHES]) ++
        rr.trace⟩

/-- The delivery phase of `endSequence` on an already-sorted item list:
items get their delivery indices, are partitioned into batches, and the
batch loop runs. -/
def deliverAll (orc : Oracle) (items : List FileInfo) : BatchRes :=
  runBatchesOK orc (chunks CONFIG.BATCH_SIZE items.enum)

/-- All three attempts of an item's oracle reject. -/
def allFail (err : ItemOracle) : Bool :=
  (err 1).isSome && (err 2).isSome && (err 3).isSome

/-- How many attempts the retry loop makes under `err`. -/
def numAttempts (err : ItemOracle) : Nat :=
  if (err 1).isNone then 1 else if (err 2).isNone then 2 else 3

def isBatchDelayEv : Ev → Bool
  | .batchDelay _ => true
  | _ => false

/-- The item indices of the send attempts of a trace, in order. -/
def attemptIdxs (t : List Ev) : List Nat :=
  t.filterMap fun e =>
    match e with
    | .attempt i _ _ => some i
    | _ => none

/-! ### Retry loop characterisation -/

/-- With the configured three attempts, the retry loop unfolds to exactly
four outcomes: success on attempt 1, 2 or 3 (with backoffs of 1000ms and
2000ms after the failed attempts 1 and 2), or exhaustion carrying the
third attempt's error. -/
theorem retryOperation_eq (err : ItemOracle) (idx : Nat) :
    retryOperation err idx =
      match err 1, err 2, err 3 with
      | none, _, _ => ([.attempt idx 1 true], none)
      | some _, none, _ =>
          ([.attempt idx 1 false, .backoff 1000, .attempt idx 2 true], none)
      | some _, some _, none =>
          ([.attempt idx 1 false, .backoff 1000, .attempt idx 2 false, .backoff 2000,
            .attempt idx 3 true], none)
      | some _, some _, some m3 =>
          ([.attempt idx 1 false, .backoff 1000, .attempt idx 2 false, .backoff 2000,
            .attempt idx 3 false], some m3) := by
  cases h1 : err 1 <;> cases h2 : err 2 <;> cases h3 : err 3 <;>
    simp [retryOperation, retryGo, CONFIG, h1, h2, h3]

theorem retryOperation_fail (err : ItemOracle) (idx : Nat) (h : allFail err = true) :
    (retryOperation err idx).2 = err 3 := by
  unfold allFail at h
  rw [retryOperation_eq]
  cases h1 : err 1 <;> cases h2 : err 2 <;> cases h3 : err 3 <;>
    simp [h1, h2, h3] at h ⊢

theorem retryOperation_ok (err : ItemOracle) (idx : Nat) (h : allFail err = false) :
    (retryOperation err idx).2 = none := by
  unfold allFail at h
  rw [retryOperation_eq]
  cases h1 : err 1 <;> cases h2 : err 2 <;> cases h3 : err 3 <;>
    simp [h1, h2, h3] at h ⊢

theorem retryOperation_outcome_some (err : ItemOracle) (idx : Nat) {m : String}
    (h : (retryOperation err idx).2 = some m) : allFail err = true := by
  cases haf : allFail err with
  | true => rfl
  | false => rw [retryOperation_ok err idx haf] at h; cases h

theorem retryOperation_outcome_none (err : ItemOracle) (idx : Nat)
    (h : (retryOperation err idx).2 = none) : allFail err = false := by
  cases haf : allFail err with
  | false => rfl
  | true =>
    rw [retryOperation_fail err idx haf] at h
    unfold allFail at haf
    rw [h] at haf
    simp at haf

theorem attemptIdxs_append (t1 t2 : List Ev) :
    attemptIdxs (t1 ++ t2) = attemptIdxs t1 ++ attemptIdxs t2 :=
  List.filterMap_append t1 t2 _

theorem attemptIdxs_retry (err : ItemOracle) (idx : Nat) :
    attemptIdxs (retryOperation err idx).1 = List.replicate (numAttempts err) idx := by
  rw [retryOperation_eq]
  unfold numAttempts
  cases h1 : err 1 <;> cases h2 : err 2 <;> cases h3 : err 3 <;>
    simp [attemptIdxs, h1, h2, h3, List.replicate]

theorem retry_last (err : ItemOracle) (idx : Nat) :
    ∃ a ok, (retryOperation err idx).1.getLast? = some (.attempt idx a ok) := by
  rw [retryOperation_eq]
  cases h1 : err 1 <;> cases h2 : err 2 <;> cases h3 : err 3 <;> simp

/-! ### Batch partition facts -/

theorem chunksGo_join {α : Type} (n : Nat) (hn : 0 < n) :
    ∀ (fuel : Nat) (l : List α), l.length ≤ fuel → (chunksGo n fuel l).flatten = l
  | 0, l, h => by
    have : l = [] := List.eq_nil_of_length_eq_zero (Nat.le_zero.1 h)
    subst this
    rfl
  | _ + 1, [], _ => rfl
  | fuel + 1, c :: t, h => by
    show (List.take n (c :: t) :: chunksGo n fuel (List.drop n (c :: t))).flatten = c :: t
    have hlen : (List.drop n (c :: t)).length ≤ fuel := by
      rw [List.length_drop]
      simp only [List.length_cons] at h ⊢
      omega
    rw [List.flatten_cons, chunksGo_join n hn fuel _ hlen, List.take_append_drop]

theorem chunks_join {α : Type} (n : Nat) (hn : 0 < n) (l : List α) :
    (chunks n l).flatten = l :=
  chunksGo_join n hn l.length l le_rfl

theorem chunksGo_mem {α : Type} (n : Nat) (hn : 0 < n) :
    ∀ (fuel : Nat) (l : List α) (b : List α), b ∈ chunksGo n fuel l →
      b.length ≤ n ∧ b ≠ []
  | 0, _, b, h => absurd h (List.not_mem_nil b)
  | _ + 1, [], b, h => absurd h (List.not_mem_nil b)
  | fuel + 1, c :: t, b, h => by
    rcases List.mem_cons.1 h with hb | h2
    · subst hb
      constructor
      · rw [List.length_take]
        omega
      · obtain ⟨m, hm⟩ := Nat.exists_eq_add_of_lt hn
        rw [hm]
        simp [List.take_succ_cons]
    · exact chunksGo_mem n hn fuel _ b h2

theorem chunks_ne_nil {α : Type} (n : Nat) (l : List α) (h : l ≠ []) :
    chunks n l ≠ [] := by
  unfold chunks
  cases l with
  | nil => exact absurd rfl h
  | cons c t => simp [chunksGo]

/-! ### Trace composition facts -/

theorem flatMap_flatten {α β : Type} :
    ∀ (bs : List (List α)) (f : α → List β),
      bs.flatten.flatMap f = bs.flatMap fun b => b.flatMap f
  | [], _ => rfl
  | b :: bs, f => by
    rw [List.flatten_cons, List.flatMap_cons, List.flatMap_append, flatMap_flatten bs f]

theorem attemptIdxs_processBatch (orc : Oracle) :
    ∀ b : List (Nat × FileInfo),
      attemptIdxs (processBatchGo orc b).trace =
        b.flatMap fun p =>
          if (msgFile p.2.message).isSome then List.replicate (numAttempts (orc p.1)) p.1
          else []
  | [] => rfl
  | (idx, fi) :: rest => by
    have ih := attemptIdxs_processBatch orc rest
    show attemptIdxs (processBatchGo orc ((idx, fi) :: rest)).trace = _
    rw [List.flatMap_cons]
    cases hmf : msgFile fi.message with
    | none =>
      simp only [processBatchGo, hmf, Option.isSome_none, Bool.false_eq_true, if_false]
      rw [ih]
      rfl
    | some f =>
      simp only [processBatchGo, hmf, Option.isSome_some, if_true]
      cases hout : (retryOperation (orc idx) idx).2 with
      | none =>
        simp only
        rw [attemptIdxs_append, attemptIdxs_append, attemptIdxs_retry, ih]
        have hdelay :
            attemptIdxs (if rest.isEmpty then [] else
              [Ev.fileDelay CONFIG.DELAY_BETWEEN_FILES]) = [] := by
          split <;> rfl
        rw [hdelay]
        simp
      | some m =>
        simp only
        rw [attemptIdxs_append, attemptIdxs_retry, ih]

theorem attemptIdxs_runBatches (orc : Oracle) :
    ∀ bs : List (List (Nat × FileInfo)),
      attemptIdxs (runBatchesOK orc bs).trace =
        bs.flatMap fun b => attemptIdxs (processBatchGo orc b).trace
  | [] => rfl
  | b :: rest => by
    have ih := attemptIdxs_runBatches orc rest
    show attemptIdxs ((processBatchGo orc b).trace ++ _ ++ (runBatchesOK orc rest).trace) = _
    rw [attemptIdxs_append, attemptIdxs_append, ih, List.flatMap_cons]
    have hdelay :
        attemptIdxs (if rest.isEmpty then [] else
          [Ev.batchDelay CONFIG.DELAY_BETWEEN_BATCHES]) = [] := by
      split <;> rfl
    rw [hdelay]
    simp

/-! ### One-step equations for the batch loops -/

theorem processBatch_cons_nofile (orc : Oracle) (idx : Nat) (fi : FileInfo)
    (rest : List (Nat × FileInfo)) (hf : msgFile fi.message = none) :
    processBatchGo orc ((idx, fi) :: rest) =
      { success := (processBatchGo orc rest).success,
        failed := (processBatchGo orc rest).failed + 1,
        errors := (processBatchGo orc rest).errors,
        trace := (processBatchGo orc rest).trace } := by
  conv_lhs => rw [processBatchGo]
  rw [hf]

theorem processBatch_cons_ok (orc : Oracle) (idx : Nat) (fi : FileInfo)
    (rest : List (Nat × FileInfo)) (f : FileObj) (hf : msgFile fi.message = some f)
    (hout : (retryOperation (orc idx) idx).2 = none) :
    processBatchGo orc ((idx, fi) :: rest) =
      { success := (processBatchGo orc rest).success + 1,
        failed := (processBatchGo orc rest).failed,
        errors := (processBatchGo orc rest).errors,
        trace := (retryOperation (orc idx) idx).1 ++
          (if rest.isEmpty then [] else [Ev.fileDelay CONFIG.DELAY_BETWEEN_FILES]) ++
          (processBatchGo orc rest).trace } := by
  conv_lhs => rw [processBatchGo]
  rw [hf]
  show (match (retryOperation (orc idx) idx).2 with
    | none => _
    | some m => _) = _
  rw [hout]

theorem processBatch_cons_fail (orc : Oracle) (idx : Nat) (fi : FileInfo)
    (rest : List (Nat × FileInfo)) (f : FileObj) (m : String)
    (hf : msgFile fi.message = some f)
    (hout : (retryOperation (orc idx) idx).2 = some m) :
    processBatchGo orc ((idx, fi) :: rest) =
      { success := (processBatchGo orc rest).success,
        failed := (processBatchGo orc rest).failed + 1,
        errors := (fi.fileName ++ ": " ++ m) :: (processBatchGo orc rest).errors,
        trace := (retryOperation (orc idx) idx).1 ++ (processBatchGo orc rest).trace } := by
  conv_lhs => rw [processBatchGo]
  rw [hf]
  show (match (retryOperation (orc idx) idx).2 with
    | none => _
    | some m => _) = _
  rw [hout]

theorem runBatches_cons (orc : Oracle) (b : List (Nat × FileInfo))
    (rest : List (List (Nat × FileInfo))) :
    runBatchesOK orc (b :: rest) =
      { success := (processBatchGo orc b).success + (runBatchesOK orc rest).success,
        failed := (processBatchGo orc b).failed + (runBatchesOK orc rest).failed,
        errors := (processBatchGo orc b).errors ++ (runBatchesOK orc rest).errors,
        trace := (processBatchGo orc b).trace ++
          (if rest.isEmpty then [] else [Ev.batchDelay CONFIG.DELAY_BETWEEN_BATCHES]) ++
          (runBatchesOK orc rest).trace } := rfl

/-! ### The trace of a delivery ends with a send attempt -/

theorem processBatch_last (orc : Oracle) :
    ∀ b : List (Nat × FileInfo), b ≠ [] →
      (∀ p ∈ b, (msgFile p.2.message).isSome = true) →
      ∃ i a ok, (processBatchGo orc b).trace.getLast? = some (.attempt i a ok)
  | [], h, _ => absurd rfl h
  | (idx, fi) :: rest, _, hall => by
    obtain ⟨f, hf⟩ :=
      Option.isSome_iff_exists.1 (hall (idx, fi) (List.mem_cons_self _ _))
    cases hrest : rest with
    | nil =>
      obtain ⟨a, ok, hlast⟩ := retry_last (orc idx) idx
      refine ⟨idx, a, ok, ?_⟩
      cases hout : (retryOperation (orc idx) idx).2 with
      | none =>
        rw [processBatch_cons_ok orc idx fi [] f hf hout]
        simpa [processBatchGo] using hlast
      | some m =>
        rw [processBatch_cons_fail orc idx fi [] f m hf hout]
        simpa [processBatchGo] using hlast
    | cons q qrest =>
      subst hrest
      obtain ⟨i, a, ok, hlast⟩ := processBatch_last orc (q :: qrest) (by simp)
        (fun p hp => hall p (List.mem_cons_of_mem _ hp))
      refine ⟨i, a, ok, ?_⟩
      cases hout : (retryOperation (orc idx) idx).2 with
      | none =>
        rw [processBatch_cons_ok orc idx fi (q :: qrest) f hf hout]
        show (_ ++ (processBatchGo orc (q :: qrest)).trace).getLast? = _
        rw [List.getLast?_append, hlast]
        rfl
      | some m =>
        rw [processBatch_cons_fail orc idx fi (q :: qrest) f m hf hout]
        show (_ ++ (processBatchGo orc (q :: qrest)).trace).getLast? = _
        rw [List.getLast?_append, hlast]
        rfl

theorem runBatches_last (orc : Oracle) :
    ∀ bs : List (List (Nat × FileInfo)), bs ≠ [] →
      (∀ b ∈ bs, b ≠ [] ∧ ∀ p ∈ b, (msgFile p.2.message).isSome = true) →
      ∃ i a ok, (runBatchesOK orc bs).trace.getLast? = some (.attempt i a ok)
  | [], h, _ => absurd rfl h
  | b :: rest, _, hall => by
    cases hrest : rest with
    | nil =>
      obtain ⟨hbne, hbmed⟩ := hall b (List.mem_cons_self _ _)
      obtain ⟨i, a, ok, hlast⟩ := processBatch_last orc b hbne hbmed
      refine ⟨i, a, ok, ?_⟩
      rw [runBatches_cons]
      simpa [runBatchesOK] using hlast
    | cons c crest =>
      subst hrest
      obtain ⟨i, a, ok, hlast⟩ := runBatches_last orc (c :: crest) (by simp)
        (fun b2 hb2 => hall b2 (List.mem_cons_of_mem _ hb2))
      refine ⟨i, a, ok, ?_⟩
      rw [runBatches_cons]
      show (_ ++ (runBatchesOK orc (c :: crest)).trace).getLast? = _
      rw [List.getLast?_append, hlast]
      rfl

/-- Every second component of an enumerated pair is an element of the list. -/
theorem snd_mem_of_mem_enumFrom :
    ∀ (l : List FileInfo) (n : Nat) (p : Nat × FileInfo), p ∈ l.enumFrom n → p.2 ∈ l
  | [], _, p, h => absurd h (List.not_mem_nil p)
  | x :: t, n, p, h => by
    rw [List.enumFrom] at h
    rcases List.mem_cons.1 h with hp | h2
    · subst hp
      exact List.mem_cons_self _ _
    · exact List.mem_cons_of_mem _ (snd_mem_of_mem_enumFrom t (n + 1) p h2)

/-! ### The inter-batch delay appears exactly between batches -/

theorem retry_no_batchDelay (err : ItemOracle) (idx : Nat) :
    ∀ e ∈ (retryOperation err idx).1, isBatchDelayEv e = false := by
  rw [retryOperation_eq]
  cases h1 : err 1 <;> cases h2 : err 2 <;> cases h3 : err 3 <;>
    simp [isBatchDelayEv]

theorem processBatch_no_batchDelay (orc : Oracle) :
    ∀ b : List (Nat × FileInfo), ∀ e ∈ (processBatchGo orc b).trace,
      isBatchDelayEv e = false
  | [] => by simp [processBatchGo]
  | (idx, fi) :: rest => by
    have ih := processBatch_no_batchDelay orc rest
    intro e he
    cases hmf : msgFile fi.message with
    | none =>
      rw [processBatch_cons_nofile orc idx fi rest hmf] at he
      exact ih e he
    | some f =>
      cases hout : (retryOperation (orc idx) idx).2 with
      | none =>
        rw [processBatch_cons_ok orc idx fi rest f hmf hout] at he
        simp only [List.mem_append] at he
        rcases he with (he | he) | he
        · exact retry_no_batchDelay (orc idx) idx e he
        · revert he
          split <;> intro he
          · exact absurd he (List.not_mem_nil e)
          · rw [List.mem_singleton.1 he]
            rfl
        · exact ih e he
      | some m =>
        rw [processBatch_cons_fail orc idx fi rest f m hmf hout] at he
        rcases List.mem_append.1 he with he | he
        · exact retry_no_batchDelay (orc idx) idx e he
        · exact ih e he

theorem batchDelay_count (orc : Oracle) :
    ∀ bs : List (List (Nat × FileInfo)), bs ≠ [] →
      ((runBatchesOK orc bs).trace.filter isBatchDelayEv).length = bs.length - 1
  | [], h => absurd rfl h
  | b :: rest, _ => by
    have hb : (processBatchGo orc b).trace.filter isBatchDelayEv = [] :=
      List.filter_eq_nil_iff.2 fun e he => by
        rw [processBatch_no_batchDelay orc b e he]
        exact Bool.false_ne_true
    cases hrest : rest with
    | nil =>
      rw [runBatches_cons]
      simp [runBatchesOK, List.filter_append, hb]
    | cons c crest =>
      subst hrest
      have ih := batchDelay_count orc (c :: crest) (by simp)
      rw [runBatches_cons]
      show ((((processBatchGo orc b).trace ++ _) ++
        (runBatchesOK orc (c :: crest)).trace).filter isBatchDelayEv).length = _
      rw [List.filter_append, List.filter_append, hb]
      simp only [List.isEmpty_cons, Bool.false_eq_true, if_false, List.nil_append,
        List.length_append, ih]
      simp [isBatchDelayEv]
      omega

/-! ### Claim theorems for the delivery engine -/

/-- C10: in every batch each item increments exactly one of the two
counters (`success + failed = length`); the failures split into items with
no media reference (counted failed with no error entry) and items whose
retries are exhausted (each contributing one error entry), so the error
list can be shorter than the failure count. -/
theorem batch_result_counters (orc : Oracle) :
    ∀ b : List (Nat × FileInfo),
      (processBatchGo orc b).success + (processBatchGo orc b).failed = b.length ∧
      (processBatchGo orc b).failed =
        (b.filter fun p => (msgFile p.2.message).isNone).length +
          (b.filter fun p => (msgFile p.2.message).isSome && allFail (orc p.1)).length ∧
      (processBatchGo orc b).errors.length =
        (b.filter fun p => (msgFile p.2.message).isSome && allFail (orc p.1)).length ∧
      (processBatchGo orc b).errors.length ≤ (processBatchGo orc b).failed
  | [] => by simp [processBatchGo]
  | (idx, fi) :: rest => by
    obtain ⟨ih1, ih2, ih3, ih4⟩ := batch_result_counters orc rest
    cases hmf : msgFile fi.message with
    | none =>
      rw [processBatch_cons_nofile orc idx fi rest hmf]
      rw [List.filter_cons_of_pos (by simp [hmf]), List.filter_cons_of_neg (by simp [hmf])]
      refine ⟨?_, ?_, ?_, ?_⟩ <;> simp <;> omega
    | some f =>
      cases hout : (retryOperation (orc idx) idx).2 with
      | none =>
        have haf : allFail (orc idx) = false := retryOperation_outcome_none _ idx hout
        rw [processBatch_cons_ok orc idx fi rest f hmf hout]
        rw [List.filter_cons_of_neg (by simp [hmf]),
          List.filter_cons_of_neg (by simp [hmf, haf])]
        refine ⟨?_, ?_, ?_, ?_⟩ <;> simp <;> omega
      | some m =>
        have haf : allFail (orc idx) = true := retryOperation_outcome_some _ idx hout
        rw [processBatch_cons_fail orc idx fi rest f m hmf hout]
        rw [List.filter_cons_of_neg (by simp [hmf]),
          List.filter_cons_of_pos (by simp [hmf, haf])]
        refine ⟨?_, ?_, ?_, ?_⟩ <;> simp <;> omega

/-- C6: each item is attempted at most `MAX_RETRIES` (3) times; after the
`a`-th failed attempt with `a < MAX_RETRIES` the loop sleeps
`RETRY_DELAY * 2^(a-1)`; an exhausted item is recorded as failed with the
last attempt's error message appended to the error list, and the rest of
the batch is still processed unchanged — one item's permanent failure
never aborts its batch. -/
theorem retry_policy :
    (∀ (err : ItemOracle) (idx : Nat),
        (attemptIdxs (retryOperation err idx).1).length ≤ CONFIG.MAX_RETRIES) ∧
    (∀ (err : ItemOracle) (idx a : Nat), 1 ≤ a → a < CONFIG.MAX_RETRIES →
        (∀ k, 1 ≤ k → k ≤ a → (err k).isSome = true) →
        Ev.backoff (CONFIG.RETRY_DELAY * 2 ^ (a - 1)) ∈ (retryOperation err idx).1) ∧
    (∀ (orc : Oracle) (idx : Nat) (fi : FileInfo) (f : FileObj)
        (rest : List (Nat × FileInfo)) (m : String),
        msgFile fi.message = some f → allFail (orc idx) = true → orc idx 3 = some m →
        processBatchGo orc ((idx, fi) :: rest) =
          { success := (processBatchGo orc rest).success,
            failed := (processBatchGo orc rest).failed + 1,
            errors := (fi.fileName ++ ": " ++ m) :: (processBatchGo orc rest).errors,
            trace := (retryOperation (orc idx) idx).1 ++
              (processBatchGo orc rest).trace }) := by
  refine ⟨?_, ?_, ?_⟩
  · intro err idx
    rw [attemptIdxs_retry, List.length_replicate]
    show numAttempts err ≤ 3
    unfold numAttempts
    split_ifs <;> omega
  · intro err idx a h1 h2 hk
    have h3 : a = 1 ∨ a = 2 := by
      have : CONFIG.MAX_RETRIES = 3 := rfl
      omega
    rcases h3 with rfl | rfl
    · obtain ⟨m1, hm1⟩ := Option.isSome_iff_exists.1 (hk 1 le_rfl le_rfl)
      rw [retryOperation_eq, hm1]
      cases he2 : err 2 <;> cases he3 : err 3 <;> simp [CONFIG]
    · obtain ⟨m1, hm1⟩ := Option.isSome_iff_exists.1 (hk 1 (by omega) (by omega))
      obtain ⟨m2, hm2⟩ := Option.isSome_iff_exists.1 (hk 2 (by omega) (by omega))
      rw [retryOperation_eq, hm1, hm2]
      cases he3 : err 3 <;> simp [CONFIG]
  · intro orc idx fi f rest m hf haf hm3
    have hout : (retryOperation (orc idx) idx).2 = some m :=
      (retryOperation_fail (orc idx) idx haf).trans hm3
    exact processBatch_cons_fail orc idx fi rest f m hf hout

/-- The transport behaviour used in C5's counterexample and C6's witness:
every attempt for the first item rejects, everything else resolves. -/
def failFirstOrc : Oracle := fun i _ => if i = 0 then some "boom" else none

/-- Witness for C6: the first backoff is slept for an item that failed its
first attempt, and an exhausted first item is recorded with its last error
while the second item is still processed. -/
theorem retry_policy_witness :
    Ev.backoff (CONFIG.RETRY_DELAY * 2 ^ (1 - 1)) ∈ (retryOperation (failFirstOrc 0) 0).1 ∧
      processBatchGo failFirstOrc [(0, exItem "f1.mkv"), (1, exItem "f2.mkv")] =
        { success := (processBatchGo failFirstOrc [(1, exItem "f2.mkv")]).success,
          failed := (processBatchGo failFirstOrc [(1, exItem "f2.mkv")]).failed + 1,
          errors := ("f1.mkv" ++ ": " ++ "boom") ::
            (processBatchGo failFirstOrc [(1, exItem "f2.mkv")]).errors,
          trace := (retryOperation (failFirstOrc 0) 0).1 ++
            (processBatchGo failFirstOrc [(1, exItem "f2.mkv")]).trace } :=
  ⟨retry_policy.2.1 (failFirstOrc 0) 0 1 (by decide) (by decide)
      (fun k hk1 hk2 => by
        have : k = 1 := le_antisymm hk2 hk1
        subst this
        decide),
    retry_policy.2.2 failFirstOrc 0 (exItem "f1.mkv")
      { file_id := "id", file_name := some "f1.mkv", file_size := none }
      [(1, exItem "f2.mkv")] "boom" (by decide) (by decide) (by decide)⟩

/-- C5 counterexample: two items in one batch, the first exhausting its
retries: the code inserts no pacing delay between the two items'
deliveries (the inter-file sleep sits on the success path only), so the
claim's unconditional delay between successive item deliveries within a
batch is false. -/
theorem delivery_pacing_cex :
    (deliverAll failFirstOrc [exItem "f1.mkv", exItem "f2.mkv"]).trace =
        [.attempt 0 1 false, .backoff 1000, .attempt 0 2 false, .backoff 2000,
          .attempt 0 3 false, .attempt 1 1 true] ∧
      (chunks CONFIG.BATCH_SIZE ([exItem "f1.mkv", exItem "f2.mkv"]).enum).length = 1 ∧
      Ev.fileDelay CONFIG.DELAY_BETWEEN_FILES ∉
        (deliverAll failFirstOrc [exItem "f1.mkv", exItem "f2.mkv"]).trace := by
  decide

/-- C5 amended: on a non-empty close, the ordered items are partitioned
into contiguous batches of at most `BATCH_SIZE` (50); batches run strictly
in order (the trace attempts item indices 0,1,2,... in order); one
inter-batch delay (100ms) separates consecutive batches and none follows
the last; within a batch the inter-item delay (100ms) follows exactly each
*successful* delivery that is not the batch's last item — no pacing delay
follows a failed item — and no delay of any kind follows the final item of
the final batch. -/
theorem delivery_batching_pacing :
    (∀ l : List (Nat × FileInfo), (chunks CONFIG.BATCH_SIZE l).flatten = l) ∧
    (∀ (l : List (Nat × FileInfo)) (b : List (Nat × FileInfo)),
        b ∈ chunks CONFIG.BATCH_SIZE l → b.length ≤ CONFIG.BATCH_SIZE ∧ b ≠ []) ∧
    (∀ (orc : Oracle) (items : List FileInfo),
        attemptIdxs (deliverAll orc items).trace =
          items.enum.flatMap fun p =>
            if (msgFile p.2.message).isSome then
              List.replicate (numAttempts (orc p.1)) p.1
            else []) ∧
    (∀ (orc : Oracle) (b : List (Nat × FileInfo))
        (rest : List (List (Nat × FileInfo))), rest ≠ [] →
        (runBatchesOK orc (b :: rest)).trace =
          (processBatchGo orc b).trace ++
            Ev.batchDelay CONFIG.DELAY_BETWEEN_BATCHES ::
            (runBatchesOK orc rest).trace) ∧
    (∀ (orc : Oracle) (b : List (Nat × FileInfo)),
        (runBatchesOK orc [b]).trace = (processBatchGo orc b).trace) ∧
    (∀ (orc : Oracle) (bs : List (List (Nat × FileInfo))), bs ≠ [] →
        ((runBatchesOK orc bs).trace.filter isBatchDelayEv).length = bs.length - 1) ∧
    (∀ (orc : Oracle) (idx : Nat) (fi : FileInfo) (f : FileObj)
        (rest : List (Nat × FileInfo)),
        msgFile fi.message = some f → allFail (orc idx) = false → rest ≠ [] →
        (processBatchGo orc ((idx, fi) :: rest)).trace =
          (retryOperation (orc idx) idx).1 ++
            Ev.fileDelay CONFIG.DELAY_BETWEEN_FILES :: (processBatchGo orc rest).trace) ∧
    (∀ (orc : Oracle) (idx : Nat) (fi : FileInfo) (f : FileObj),
        msgFile fi.message = some f →
        (processBatchGo orc [(idx, fi)]).trace = (retryOperation (orc idx) idx).1) ∧
    (∀ (orc : Oracle) (idx : Nat) (fi : FileInfo) (f : FileObj)
        (rest : List (Nat × FileInfo)) (m : String),
        msgFile fi.message = some f → (retryOperation (orc idx) idx).2 = some m →
        (processBatchGo orc ((idx, fi) :: rest)).trace =
          (retryOperation (orc idx) idx).1 ++ (processBatchGo orc rest).trace) ∧
    (∀ (orc : Oracle) (items : List FileInfo), items ≠ [] →
        (∀ fi ∈ items, (msgFile fi.message).isSome = true) →
        ∃ i a ok,
          (deliverAll orc items).trace.getLast? = some (.attempt i a ok)) := by
  have hbs : 0 < CONFIG.BATCH_SIZE := by decide
  refine ⟨fun l => chunks_join _ hbs l, ?_, ?_, ?_, ?_, ?_, ?_, ?_, ?_, ?_⟩
  · intro l b hb
    exact chunksGo_mem CONFIG.BATCH_SIZE hbs l.length l b hb
  · intro orc items
    unfold deliverAll
    rw [attemptIdxs_runBatches]
    simp only [attemptIdxs_processBatch]
    rw [← flatMap_flatten, chunks_join _ hbs]
  · intro orc b rest hrest
    rw [runBatches_cons]
    show _ ++ (if rest.isEmpty then _ else _) ++ _ = _
    rw [if_neg (by simp [hrest]), List.append_assoc]
    rfl
  · intro orc b
    rw [runBatches_cons]
    simp [runBatchesOK]
  · exact batchDelay_count
  · intro orc idx fi f rest hf haf hrest
    rw [processBatch_cons_ok orc idx fi rest f hf (retryOperation_ok (orc idx) idx haf)]
    show _ ++ (if rest.isEmpty then _ else _) ++ _ = _
    rw [if_neg (by simp [hrest]), List.append_assoc]
    rfl
  · intro orc idx fi f hf
    cases hout : (retryOperation (orc idx) idx).2 with
    | none =>
      rw [processBatch_cons_ok orc idx fi [] f hf hout]
      simp [processBatchGo]
    | some m =>
      rw [processBatch_cons_fail orc idx fi [] f m hf hout]
      simp [processBatchGo]
  · intro orc idx fi f rest m hf hout
    rw [processBatch_cons_fail orc idx fi rest f m hf hout]
  · intro orc items hne hall
    unfold deliverAll
    apply runBatches_last
    · apply chunks_ne_nil
      cases items with
      | nil => exact absurd rfl hne
      | cons x t => simp [List.enum, List.enumFrom]
    · intro b hb
      refine ⟨(chunksGo_mem CONFIG.BATCH_SIZE hbs items.enum.length items.enum b hb).2, ?_⟩
      intro p hp
      have hpl : p ∈ items.enum := by
        rw [← chunks_join CONFIG.BATCH_SIZE hbs items.enum]
        exact List.mem_flatten.2 ⟨b, hb, hp⟩
      exact hall p.2 (snd_mem_of_mem_enumFrom items 0 p hpl)

/-- Witness for C5 on concrete inputs: a two-item all-success delivery has
the pacing delay after the first (non-final) successful item, the
partition round-trips, and the trace ends with a send attempt. -/
theorem delivery_batching_pacing_witness :
    (chunks CONFIG.BATCH_SIZE [(0, exItem "a.mkv"), (1, exItem "b.mkv")]).flatten =
        [(0, exItem "a.mkv"), (1, exItem "b.mkv")] ∧
      (processBatchGo (fun _ _ => none) [(0, exItem "a.mkv"), (1, exItem "b.mkv")]).trace =
        (retryOperation ((fun _ _ => none : Oracle) 0) 0).1 ++
          Ev.fileDelay CONFIG.DELAY_BETWEEN_FILES ::
          (processBatchGo (fun _ _ => none) [(1, exItem "b.mkv")]).trace ∧
      (∃ i a ok,
        (deliverAll (fun _ _ => none) [exItem "a.mkv", exItem "b.mkv"]).trace.getLast? =
          some (.attempt i a ok)) :=
  ⟨delivery_batching_pacing.1 _,
    delivery_batching_pacing.2.2.2.2.2.2.1 (fun _ _ => none) 0 (exItem "a.mkv")
      { file_id := "id", file_name := some "a.mkv", file_size := none }
      [(1, exItem "b.mkv")] (by decide) (by decide) (by decide),
    delivery_batching_pacing.2.2.2.2.2.2.2.2.2 (fun _ _ => none)
      [exItem "a.mkv", exItem "b.mkv"] (by decide) (by decide)⟩

/-! ### Session store and command handlers -/

/-- One `userFileSequences` entry (bot.js lines 345-349).  The two
`new Date()` calls at session creation are modelled as the same tick. -/
structure UserData where
  files : List FileInfo
  startTime : Nat
  lastActivity : Nat
deriving DecidableEq

/-- The `userFileSequences` `Map`, modelled as an association list:
`has`/`get` = `lookupStore`, `delete` = `eraseStore`, `set` = `setStore`
(entry order is irrelevant to every observation made of it). -/
abbrev Store := List (Nat × UserData)

def lookupStore (st : Store) (uid : Nat) : Option UserData :=
  (st.find? fun p => p.1 == uid).map fun p => p.2

def eraseStore (st : Store) (uid : Nat) : Store :=
  st.filter fun p => p.1 != uid

def setStore (st : Store) (uid : Nat) (ud : UserData) : Store :=
  (uid, ud) :: eraseStore st uid

theorem lookupStore_erase (st : Store) (uid : Nat) :
    lookupStore (eraseStore st uid) uid = none := by
  unfold lookupStore eraseStore
  rw [Option.map_eq_none', List.find?_eq_none]
  intro p hp
  have := (List.mem_filter.1 hp).2
  simp at this ⊢
  exact this

theorem lookupStore_set (st : Store) (uid : Nat) (ud : UserData) :
    lookupStore (setStore st uid ud) uid = some ud := by
  unfold lookupStore setStore
  rw [List.find?_cons_of_pos _ (by simp)]
  rfl

inductive StartOutcome where
  | alreadyActive (count : Nat)
  | started
deriving DecidableEq

/-- The `/ssequence` handler (bot.js lines 336-358): with an open session
it only reports the current file count (no mutation); otherwise it stores
a fresh empty session whose start and last-activity timestamps are now. -/
def ssequence (st : Store) (uid now : Nat) : Store × StartOutcome :=
  match lookupStore st uid with
  | some ud => (st, .alreadyActive ud.files.length)
  | none => (setStore st uid ⟨[], now, now⟩, .started)

inductive IngestOutcome where
  | noSession
  | unsupported
  | capacity
  | added (count : Nat)
deriving DecidableEq

def fileTypeName : FileType → String
  | .document => "document"
  | .video => "video"
  | .audio => "audio"

/-- Models `processFileSequence` (bot.js lines 70-118): requires an open session
(line 73) and a media object of the announced kind (line 81), rejects when
the session already holds `MAX_FILES_PER_USER` items (line 87), and
otherwise appends the new `fileInfo` (fileName defaulting to
`` `${fileType}_${Date.now()}` ``, fileSize defaulting to 0) and refreshes
the last-activity timestamp.  The acknowledgment replies that follow the
mutation do not affect the store. -/
def processFileSequence (st : Store) (uid : Nat) (ft : FileType) (m : Msg) (now : Nat) :
    Store × IngestOutcome :=
  match lookupStore st uid with
  | none => (st, .noSession)
  | some ud =>
    match m.getType ft with
    | none => (st, .unsupported)
    | some f =>
      if CONFIG.MAX_FILES_PER_USER ≤ ud.files.length then (st, .capacity)
      else
        (setStore st uid
          { files := ud.files ++
              [{ message := m, fileType := ft,
                 fileName := f.file_name.getD (fileTypeName ft ++ "_" ++ toString now),
                 fileSize := f.file_size.getD 0, timestamp := now }],
            startTime := ud.startTime, lastActivity := now },
          .added (ud.files.length + 1))

inductive CloseOutcome where
  | noSession
  | emptyDone
  | emptyReplyThrown
  | startReplyThrown
  | finished (total succ fail : Nat) (errors : List String)
  | caught
deriving DecidableEq

/-- The batch loop as run inside `endSequence`'s `try` (bot.js lines
215-230) with fallible progress replies: `rok rc = false` means the
`rc`-th `ctx.reply` of this close invocation rejects, which throws to the
outer catch (discarding the counters); the "Processing batch" reply is
sent before a batch only when there is more than one batch.  Returns
`none` when a reply threw, otherwise the next reply counter and the
aggregated success/failed/errors. -/
def runBatchesCrash (orc : Oracle) (rok : Nat → Bool) (total : Nat) :
    Nat → List (List (Nat × FileInfo)) → Option (Nat × Nat × Nat × List String)
  | rc, [] => some (rc, 0, 0, [])
  | rc, b :: rest =>
    if 1 < total then
      if rok rc then
        match runBatchesCrash orc rok total (rc + 1) rest with
        | none => none
        | some (rc2, s, f, es) =>
          some (rc2, (processBatchGo orc b).success + s,
            (processBatchGo orc b).failed + f, (processBatchGo orc b).errors ++ es)
      else none
    else
      match runBatchesCrash orc rok total rc rest with
      | none => none
      | some (rc2, s, f, es) =>
        some (rc2, (processBatchGo orc b).success + s,
          (processBatchGo orc b).failed + f, (processBatchGo orc b).errors ++ es)

/-- Models `endSequence` (bot.js lines 171-279).  Reply calls are numbered within
the invocation; reply 0 is the first reply of the taken path.  The
no-files notice (line 182) is sent *before* its `delete` (line 183), and
the "Starting to sequence" notice (line 188) sits *before* the
`try`/`finally`, so either of them throwing leaves the session in place.
Inside the `try`, per-item sends never throw (they are caught by
`retryOperation`/`processBatch`), the statistics update has its own
try/catch (lines 253-270, not modelled), and any progress/summary reply
rejection reaches the outer catch — the `finally` (line 277) then still
deletes the session (a rejection of the catch's own reply happens after
the `finally` ran, so it is folded into `.caught`). -/
def endSequenceModel (st : Store) (uid : Nat) (orc : Oracle) (rok : Nat → Bool) :
    Store × CloseOutcome :=
  match lookupStore st uid with
  | none => (st, .noSession)
  | some ud =>
    if ud.files.length = 0 then
      if rok 0 then (eraseStore st uid, .emptyDone)
      else (st, .emptyReplyThrown)
    else if rok 0 then
      match
        runBatchesCrash orc rok (chunks CONFIG.BATCH_SIZE (sortFiles ud.files).enum).length
          1 (chunks CONFIG.BATCH_SIZE (sortFiles ud.files).enum) with
      | none => (eraseStore st uid, .caught)
      | some (rc2, s, f, es) =>
        if rok rc2 then (eraseStore st uid, .finished ud.files.length s f es)
        else (eraseStore st uid, .caught)
    else (st, .startReplyThrown)

/-! ### Claim theorems for the session lifecycle -/

/-- An example store: user 7 holds an open empty session. -/
def cexStore : Store := [(7, { files := [], startTime := 0, lastActivity := 0 })]

/-- An example store: user 7 holds two collected items. -/
def cexStore2 : Store :=
  [(7, { files := [exItem "a.mkv", exItem "b.mkv"], startTime := 0, lastActivity := 0 })]

/-- C7 counterexample: closing an empty session whose notification reply
rejects leaves the session in the store — the no-files notice is sent
before the `delete` and outside any try/finally, so this exit path does
not remove the session. -/
theorem close_cleanup_cex :
    endSequenceModel cexStore 7 (fun _ _ => none) (fun _ => false) =
        (cexStore, .emptyReplyThrown) ∧
      lookupStore cexStore 7 ≠ none := by
  decide

/-- C7 amended: provided the first acknowledgment reply of the taken close
path resolves (the code sends it before reaching the `delete` or the
`try`/`finally`), close leaves no session for the user on every exit path:
no session, empty session, every item failing delivery, and any error
raised inside the delivery phase (progress or summary reply rejection). -/
theorem close_removes_session (st : Store) (uid : Nat) (orc : Oracle)
    (rok : Nat → Bool) (h : rok 0 = true) :
    lookupStore (endSequenceModel st uid orc rok).1 uid = none := by
  unfold endSequenceModel
  cases hlook : lookupStore st uid with
  | none =>
    dsimp only
    exact hlook
  | some ud =>
    dsimp only
    by_cases hempty : ud.files.length = 0
    · rw [if_pos hempty, if_pos h]
      exact lookupStore_erase st uid
    · rw [if_neg hempty, if_pos h]
      cases runBatchesCrash orc rok
          (chunks CONFIG.BATCH_SIZE (sortFiles ud.files).enum).length 1
          (chunks CONFIG.BATCH_SIZE (sortFiles ud.files).enum) with
      | none => exact lookupStore_erase st uid
      | some r =>
        obtain ⟨rc2, s, f, es⟩ := r
        by_cases hsum : rok rc2
        · simp only [hsum, if_true]
          exact lookupStore_erase st uid
        · simp only [hsum, if_false]
          exact lookupStore_erase st uid

/-- Witness for C7: with resolving replies, closing the two-item session
where every transport send rejects reports 0 successes and 2 failures
with both error messages, and removes the session. -/
theorem close_removes_session_witness :
    (fun _ : Nat => true) 0 = true ∧
      lookupStore
        (endSequenceModel cexStore2 7 (fun _ _ => some "down") (fun _ => true)).1 7 =
          none ∧
      (endSequenceModel cexStore2 7 (fun _ _ => some "down") (fun _ => true)).2 =
        .finished 2 0 2 ["a.mkv: down", "b.mkv: down"] :=
  ⟨rfl,
    close_removes_session cexStore2 7 (fun _ _ => some "down") (fun _ => true) rfl,
    by decide⟩

/-- C8: starting while a session is open performs no mutation and reports
the existing item count; only a start with no open session creates the
fresh empty session with both timestamps set to now; and the per-user
entry count never grows beyond one. -/
theorem start_single_session :
    (∀ (st : Store) (uid now : Nat) (ud : UserData), lookupStore st uid = some ud →
        ssequence st uid now = (st, .alreadyActive ud.files.length)) ∧
    (∀ (st : Store) (uid now : Nat), lookupStore st uid = none →
        ssequence st uid now =
            (setStore st uid { files := [], startTime := now, lastActivity := now },
              .started) ∧
          lookupStore (ssequence st uid now).1 uid =
            some { files := [], startTime := now, lastActivity := now }) ∧
    (∀ (st : Store) (uid now uid2 : Nat),
        ((st.filter fun p => p.1 == uid2).length ≤ 1) →
        (((ssequence st uid now).1.filter fun p => p.1 == uid2).length ≤ 1)) := by
  refine ⟨?_, ?_, ?_⟩
  · intro st uid now ud h
    unfold ssequence
    rw [h]
  · intro st uid now h
    unfold ssequence
    rw [h]
    exact ⟨rfl, lookupStore_set st uid _⟩
  · intro st uid now uid2 hcount
    unfold ssequence
    cases hlook : lookupStore st uid with
    | some ud => exact hcount
    | none =>
      show ((setStore st uid _).filter fun p => p.1 == uid2).length ≤ 1
      unfold setStore eraseStore
      by_cases huid : uid = uid2
      · subst huid
        rw [List.filter_cons_of_pos (by simp)]
        have hzero :
            ((st.filter fun p => p.1 != uid).filter fun p => p.1 == uid).length = 0 := by
          rw [List.length_eq_zero, List.filter_eq_nil_iff]
          intro p hp
          have := (List.mem_filter.1 hp).2
          simp at this ⊢
          exact this
        rw [List.filter_filter] at hzero ⊢
        simp only [List.length_cons]
        omega
      · rw [List.filter_cons_of_neg (by simp [huid])]
        calc ((st.filter fun p => p.1 != uid).filter fun p => p.1 == uid2).length
            ≤ (st.filter fun p => p.1 == uid2).length :=
              ((List.filter_sublist st).filter _).length_le
          _ ≤ 1 := hcount

/-- Witness for C8: a second start on an open session changes nothing and
reports the held count; a first start creates the session. -/
theorem start_single_session_witness :
    ssequence cexStore2 7 5 = (cexStore2, .alreadyActive 2) ∧
      ssequence [] 7 5 =
        ([(7, { files := [], startTime := 5, lastActivity := 5 })], .started) :=
  ⟨start_single_session.1 cexStore2 7 5
      { files := [exItem "a.mkv", exItem "b.mkv"], startTime := 0, lastActivity := 0 }
      (by decide),
    (start_single_session.2.1 [] 7 5 (by decide)).1⟩

/-- Every session in the store holds at most `MAX_FILES_PER_USER` items. -/
def StoreBounded (st : Store) : Prop :=
  ∀ p ∈ st, p.2.files.length ≤ CONFIG.MAX_FILES_PER_USER

/-- C9: ingesting a supported item into a session already holding
`MAX_FILES_PER_USER` (200) items leaves the store untouched and reports
the capacity error; consequently the ingestion and start handlers preserve
the invariant that no session's item count exceeds the maximum. -/
theorem ingest_capacity :
    (∀ (st : Store) (uid : Nat) (ft : FileType) (m : Msg) (now : Nat)
        (ud : UserData) (f : FileObj),
        lookupStore st uid = some ud → m.getType ft = some f →
        CONFIG.MAX_FILES_PER_USER ≤ ud.files.length →
        processFileSequence st uid ft m now = (st, .capacity)) ∧
    (∀ (st : Store) (uid : Nat) (ft : FileType) (m : Msg) (now : Nat),
        StoreBounded st → StoreBounded (processFileSequence st uid ft m now).1) ∧
    (∀ (st : Store) (uid now : Nat),
        StoreBounded st → StoreBounded (ssequence st uid now).1) := by
  refine ⟨?_, ?_, ?_⟩
  · intro st uid ft m now ud f hlook hft hcap
    unfold processFileSequence
    rw [hlook, hft]
    dsimp only
    rw [if_pos hcap]
  · intro st uid ft m now hb
    unfold processFileSequence
    cases hlook : lookupStore st uid with
    | none => exact hb
    | some ud =>
      cases hft : m.getType ft with
      | none => exact hb
      | some f =>
        dsimp only
        by_cases hcap : CONFIG.MAX_FILES_PER_USER ≤ ud.files.length
        · rw [if_pos hcap]
          exact hb
        · rw [if_neg hcap]
          intro p hp
          rcases List.mem_cons.1 hp with hp1 | hp2
          · subst hp1
            simp only [List.length_append, List.length_cons, List.length_nil]
            omega
          · exact hb p (List.mem_filter.1 hp2).1
  · intro st uid now hb
    unfold ssequence
    cases hlook : lookupStore st uid with
    | some ud => exact hb
    | none =>
      intro p hp
      rcases List.mem_cons.1 hp with hp1 | hp2
      · subst hp1
        simp [CONFIG]
      · exact hb p (List.mem_filter.1 hp2).1

set_option maxRecDepth 8000 in
/-- Witness for C9: a full session (200 one-item stubs) rejects a new
document with the capacity error and is left unchanged. -/
theorem ingest_capacity_witness :
    processFileSequence
        [(7, { files := List.replicate 200 (exItem "x.mkv"), startTime := 0,
               lastActivity := 0 })] 7 .document (exMsg "y.mkv") 9 =
      ([(7, { files := List.replicate 200 (exItem "x.mkv"), startTime := 0,
              lastActivity := 0 })], .capacity) :=
  ingest_capacity.1 _ 7 .document (exMsg "y.mkv") 9
    { files := List.replicate 200 (exItem "x.mkv"), startTime := 0, lastActivity := 0 }
    { file_id := "id", file_name := some "y.mkv", file_size := none }
    (by decide) (by decide) (by decide)

end SeqBot
